import Mathlib

/-!
Verification of the Fish Audio TTS adapter (`fishaudio_livekit/tts.py`).

The development shallowly embeds the pure/stateful core of the adapter:

* `_FadeInProcessor` (byte-level PCM fade-in transform) as `FadeInProcessor`
  together with `process`;
* the one-shot courier-queue consume loop of `_FadingChunkedStream._run` as
  `consumeLoop` / `chunkedRun`;
* the streaming `_send_loop` as `sendLoop`, the streaming `_recv_loop` as
  `recvLoop`, and the emitter-call trace of `_FadingStream._run` as
  `streamRun` / `streamEmitterTrace`.

Python `bytes` values are modelled as `List (Fin 256)`; 16-bit little-endian
signed PCM samples (`array("h")`) as `Int` with explicit encode/decode;
fade factors (Python floats) as exact rationals, with `int(x * factor)`
modelled as truncated integer division (`Int.tdiv`).
-/

namespace FishAudio

/-! ### PCM byte codec

`array("h").frombytes` / `.tobytes`: little-endian signed 16-bit samples. -/

/-- Decode a little-endian byte pair into a signed 16-bit sample,
as `array("h").frombytes` does. -/
def decodePair (lo hi : Fin 256) : Int :=
  let u : Nat := lo.val + 256 * hi.val
  if u < 32768 then (u : Int) else (u : Int) - 65536

/-- Encode a signed 16-bit sample into its two little-endian bytes,
as `array("h").tobytes` does. -/
def encodeSample (s : Int) : List (Fin 256) :=
  let u : Nat := (s % 65536).toNat
  [⟨u % 256, Nat.mod_lt _ (by omega)⟩, ⟨u / 256 % 256, Nat.mod_lt _ (by omega)⟩]

/-- Decode a byte string into its list of 16-bit samples (pairs of bytes,
little-endian).  `process` only decodes buffers of even length, so the
odd trailing byte case is unreachable there. -/
def bytesToSamples : List (Fin 256) → List Int
  | lo :: hi :: rest => decodePair lo hi :: bytesToSamples rest
  | _ => []

/-- Re-encode a list of 16-bit samples into bytes (`array.tobytes`). -/
def samplesToBytes (ss : List Int) : List (Fin 256) :=
  (ss.map encodeSample).flatten

/-! ### The fade-in transform (`_FadeInProcessor`) -/

/-- One sample scaled by the fade factor `pos / n`, clamped at `1.0`, with the
result truncated toward zero — `int(samples[idx] * factor)` where
`factor = fade_position / self._fade_frames` and `factor = min(factor, 1.0)`. -/
def scaleSample (s : Int) (pos n : Nat) : Int :=
  if pos > n then s else (s * (pos : Int)).tdiv (n : Int)

/-- The sample-mutation loop of `_FadeInProcessor.process`: sample index `i`
belongs to frame `i / numCh`; frames below `applyFrames` are scaled with fade
position `startFrame + frame index`; the rest are left untouched. -/
def fadeLoop (numCh n applyFrames startFrame : Nat) : Nat → List Int → List Int
  | _, [] => []
  | i, s :: rest =>
      (if i / numCh < applyFrames then scaleSample s (startFrame + i / numCh) n else s)
        :: fadeLoop numCh n applyFrames startFrame (i + 1) rest

/-- State of `_FadeInProcessor`: channel count (`_num_channels`), fade length
in frames (`_fade_frames`), frames seen so far (`_processed_frames`).
`_sample_width` is the constant 2. -/
structure FadeInProcessor where
  numChannels : Nat
  fadeFrames : Nat
  processedFrames : Nat
  deriving DecidableEq

/-- `self._frame_width = self._sample_width * self._num_channels`. -/
def frameWidth (st : FadeInProcessor) : Nat := 2 * st.numChannels

/-- `_FadeInProcessor.__init__`: `num_channels = max(1, num_channels)`,
`fade_frames = max(0, int(sample_rate * duration_ms / 1000))`,
`processed_frames = 0`. -/
def mkFadeInProcessor (sampleRate numChannels durationMs : Nat) : FadeInProcessor :=
  { numChannels := max 1 numChannels
    fadeFrames := sampleRate * durationMs / 1000
    processedFrames := 0 }

/-- `_FadeInProcessor.process`, byte for byte.  Returns the updated state and
the returned buffer. -/
def process (st : FadeInProcessor) (chunk : List (Fin 256)) :
    FadeInProcessor × List (Fin 256) :=
  if chunk.length = 0 ∨ st.fadeFrames = 0 then (st, chunk)
  else if chunk.length % frameWidth st ≠ 0 then (st, chunk)
  else
    let frameCount := chunk.length / frameWidth st
    if st.processedFrames ≥ st.fadeFrames ∨ frameCount = 0 then
      ({ st with processedFrames := st.processedFrames + frameCount }, chunk)
    else
      let fadeRemaining := st.fadeFrames - st.processedFrames
      let applyFrames := min frameCount fadeRemaining
      if applyFrames = 0 then
        ({ st with processedFrames := st.processedFrames + frameCount }, chunk)
      else
        let faded := fadeLoop st.numChannels st.fadeFrames applyFrames
          st.processedFrames 0 (bytesToSamples chunk)
        ({ st with processedFrames := st.processedFrames + frameCount },
          samplesToBytes faded)

/-- `fade_processor.process(item) if fade_processor else item`. -/
def processOpt (fp : Option FadeInProcessor) (chunk : List (Fin 256)) :
    Option FadeInProcessor × List (Fin 256) :=
  match fp with
  | none => (none, chunk)
  | some st => (some (process st chunk).1, (process st chunk).2)

-- sanity checks on concrete values
example : decodePair 100 0 = 100 := by decide
example : decodePair 0 255 = -256 := by decide
example : encodeSample (-256) = [0, 255] := by decide
example : process ⟨1, 1, 0⟩ [100, 0] = (⟨1, 1, 1⟩, [0, 0]) := by decide
example : process ⟨1, 2, 0⟩ [100, 0, 100, 0] = (⟨1, 2, 2⟩, [0, 0, 50, 0]) := by decide
example : process ⟨1, 5, 0⟩ [1, 2, 3] = (⟨1, 5, 0⟩, [1, 2, 3]) := by decide
example : process ⟨1, 0, 0⟩ [1, 0] = (⟨1, 0, 0⟩, [1, 0]) := by decide

/-! ### One-shot path: `_FadingChunkedStream._run`

`run_tts` iterates the blocking `self._ws.tts(...)` generator on a worker
thread, enqueueing every yielded chunk in order, then the raised exception (if
any) as a value, then the sentinel.  The consume loop drains the queue in FIFO
order. -/

/-- An item of the courier queue (the sentinel terminates the modelled list). -/
inductive QItem
  | chunk (b : List (Fin 256))
  | exc
  deriving DecidableEq

/-- The queue contents produced by `run_tts` for a source that yields
`yielded` and then either finishes (`failed = false`) or raises
(`failed = true`): chunks in order, then the exception value, then the
sentinel (= end of list). -/
def courierItems (yielded : List (List (Fin 256))) (failed : Bool) : List QItem :=
  yielded.map QItem.chunk ++ (if failed then [QItem.exc] else [])

/-- The consume loop of `_FadingChunkedStream._run` (lines 174-187): drains
the queue until the sentinel; an exception item sets `error` and later chunks
are no longer pushed; otherwise the chunk is fade-processed and pushed.
Returns final fade state, pushed buffers in order, and whether an error item
was seen. -/
def consumeLoop (fp : Option FadeInProcessor) :
    List QItem → Bool → Option FadeInProcessor × List (List (Fin 256)) × Bool
  | [], errorSeen => (fp, [], errorSeen)
  | QItem.exc :: rest, _ => consumeLoop fp rest true
  | QItem.chunk b :: rest, errorSeen =>
      if errorSeen then consumeLoop fp rest true
      else
        let r := processOpt fp b
        let t := consumeLoop r.1 rest false
        (t.1, r.2 :: t.2.1, t.2.2)

/-- Outcome of a one-shot `_run`: the buffers pushed to the emitter, whether
`end_input()` was called, and whether the call raised `APIConnectionError`.
After the loop, `_run` raises the recorded error (wrapped into the single
connection-error kind) without calling `end_input()`, or calls `end_input()`
and returns. -/
structure ChunkedRunResult where
  pushes : List (List (Fin 256))
  endInputCalled : Bool
  raisedConnError : Bool
  deriving DecidableEq

/-- `_FadingChunkedStream._run` for a blocking source yielding `yielded` and
then raising iff `failed`. -/
def chunkedRun (fp : Option FadeInProcessor) (yielded : List (List (Fin 256)))
    (failed : Bool) : ChunkedRunResult :=
  let r := consumeLoop fp (courierItems yielded failed) false
  { pushes := r.2.1, endInputCalled := !r.2.2, raisedConnError := r.2.2 }

/-- Reference in-order fade-processing of a chunk list (threading the fade
state through every chunk, keeping outputs in order). -/
def processedList (fp : Option FadeInProcessor) :
    List (List (Fin 256)) → Option FadeInProcessor × List (List (Fin 256))
  | [] => (fp, [])
  | b :: rest =>
      let r := processOpt fp b
      let t := processedList r.1 rest
      (t.1, r.2 :: t.2)

/-! ### Streaming outbound half: `_send_loop` -/

/-- Python `str.strip()` with no argument: remove leading and trailing
whitespace. -/
def pyStrip (s : String) : String :=
  ⟨((s.data.dropWhile Char.isWhitespace).reverse.dropWhile Char.isWhitespace).reverse⟩

/-- An item of the stream's input channel: a text fragment or the flush
sentinel. -/
inductive InputItem
  | text (s : String)
  | flushMarker
  deriving DecidableEq

/-- A frame sent over the websocket by `_send_loop` (msgpack payloads
abstracted to their event structure). -/
inductive Frame
  | text (s : String)
  | flush
  | stop
  deriving DecidableEq

/-- `_flush_pending`: on empty pending, nothing; otherwise join the pending
fragments, clear them, and if the stripped text is non-empty mark started and
send a `text` frame (carrying the unstripped join) followed by a `flush`
frame.  Returns (pending, started, frames sent). -/
def flushPending (pending : List String) (started : Bool) :
    List String × Bool × List Frame :=
  if pending = [] then (pending, started, [])
  else
    let textRaw := String.join pending
    let normalized := pyStrip textRaw
    if normalized = "" then ([], started, [])
    else ([], true, [Frame.text textRaw, Frame.flush])

/-- The input-consuming loop of `_send_loop`: flush markers trigger
`_flush_pending`; text items are buffered. -/
def sendLoopGo (pending : List String) (started : Bool) :
    List InputItem → List String × Bool × List Frame
  | [] => (pending, started, [])
  | InputItem.flushMarker :: rest =>
      let r := flushPending pending started
      let t := sendLoopGo r.1 r.2.1 rest
      (t.1, t.2.1, r.2.2 ++ t.2.2)
  | InputItem.text s :: rest => sendLoopGo (pending ++ [s]) started rest

/-- `_send_loop`: consume the input channel, final `_flush_pending(force=True)`
after end-of-input, then a `stop` frame iff any submission was sent. -/
def sendLoop (items : List InputItem) : List Frame :=
  let r := sendLoopGo [] false items
  let f := flushPending r.1 r.2.1
  r.2.2 ++ f.2.2 ++ (if f.2.1 then [Frame.stop] else [])

/-! ### Streaming inbound half: `_recv_loop`, and the emitter trace of
`_FadingStream._run` -/

/-- A decoded inbound frame: `data.get("event")` dispatch. -/
inductive InEvent
  | audio (chunk : List (Fin 256))
  | finish (reason : String)
  | unknown
  deriving DecidableEq

/-- One step of the receive loop's environment: a frame arrives, the bounded
wait expires (`asyncio.TimeoutError`), or the socket disconnects
(`WebSocketDisconnect`). -/
inductive RecvItem
  | msg (e : InEvent)
  | timeout
  | disconnect
  deriving DecidableEq

/-- How the receive loop ended: normally, by raising the connection error, or
still awaiting a frame (the modelled item list ran out). -/
inductive Outcome
  | normal
  | connError
  | pending
  deriving DecidableEq

/-- `receive_timeout = timeout if timeout else 30.0` (floats modelled as
rationals; a `0` timeout is falsy). -/
def receiveTimeout (timeout : ℚ) : ℚ :=
  if timeout ≠ 0 then timeout else 30

/-- `_recv_loop`: receive with a bounded wait; `audio` events with non-empty
payload are fade-processed and pushed; `finish` with reason `"error"` raises
the connection error, any other `finish` ends the loop normally; unknown
events are ignored; a wait expiry ends the loop normally
(`except asyncio.TimeoutError: pass`); a disconnect raises the connection
error. -/
def recvLoop (fp : Option FadeInProcessor) :
    List RecvItem → Option FadeInProcessor × List (List (Fin 256)) × Outcome
  | [] => (fp, [], Outcome.pending)
  | RecvItem.timeout :: _ => (fp, [], Outcome.normal)
  | RecvItem.disconnect :: _ => (fp, [], Outcome.connError)
  | RecvItem.msg (InEvent.audio chunk) :: rest =>
      if chunk.length ≠ 0 then
        let r := processOpt fp chunk
        let t := recvLoop r.1 rest
        (t.1, r.2 :: t.2.1, t.2.2)
      else recvLoop fp rest
  | RecvItem.msg (InEvent.finish reason) :: _ =>
      if reason = "error" then (fp, [], Outcome.connError) else (fp, [], Outcome.normal)
  | RecvItem.msg InEvent.unknown :: rest => recvLoop fp rest

/-- Reference processing of the audio events of an inbound message list that
contains no `finish` event: the fade-processed non-empty audio chunks, in
order. -/
def recvPushes (fp : Option FadeInProcessor) :
    List InEvent → Option FadeInProcessor × List (List (Fin 256))
  | [] => (fp, [])
  | InEvent.audio chunk :: rest =>
      if chunk.length ≠ 0 then
        let r := processOpt fp chunk
        let t := recvPushes r.1 rest
        (t.1, r.2 :: t.2)
      else recvPushes fp rest
  | InEvent.finish _ :: _ => (fp, [])
  | InEvent.unknown :: rest => recvPushes fp rest

/-- `e.isFinish = true` iff the event is a `finish` event. -/
def InEvent.isFinish : InEvent → Bool
  | InEvent.finish _ => true
  | _ => false

/-- A call observed on the output emitter. -/
inductive EmitterCall
  | init
  | startSegment
  | push (b : List (Fin 256))
  | endInput
  deriving DecidableEq

/-- `c.isStartSegment = true` iff the call is `start_segment`. -/
def EmitterCall.isStartSegment : EmitterCall → Bool
  | EmitterCall.startSegment => true
  | _ => false

/-- `_FadingStream._run`, projected onto its emitter calls and outcome:
`initialize(..., stream=True)` (line 226), the `start_segment` call issued
right after the websocket handshake (line 338), the receive loop's pushes
(line 317), and the `end_input()` in the `finally` block (line 360), which
runs whether the call completes normally or raises. -/
def streamRun (fp : Option FadeInProcessor) (items : List RecvItem) :
    List EmitterCall × Outcome :=
  let r := recvLoop fp items
  (EmitterCall.init :: EmitterCall.startSegment ::
    (r.2.1.map EmitterCall.push ++ [EmitterCall.endInput]), r.2.2)

/-- The emitter-call trace of one streaming `_run`. -/
def streamEmitterTrace (fp : Option FadeInProcessor) (items : List RecvItem) :
    List EmitterCall :=
  (streamRun fp items).1

-- sanity checks
example : sendLoop [InputItem.text "hello", InputItem.flushMarker,
    InputItem.text "world", InputItem.flushMarker] =
    [Frame.text "hello", Frame.flush, Frame.text "world", Frame.flush, Frame.stop] := by
  decide
example : sendLoop [InputItem.text "  ", InputItem.flushMarker] = [] := by decide
example : recvLoop none [RecvItem.msg (InEvent.audio [1, 0]), RecvItem.timeout] =
    (none, [[1, 0]], Outcome.normal) := by decide
example : streamEmitterTrace none [RecvItem.timeout] =
    [EmitterCall.init, EmitterCall.startSegment, EmitterCall.endInput] := by decide
example : chunkedRun none [[1, 0], [2, 0]] true =
    { pushes := [[1, 0], [2, 0]], endInputCalled := false, raisedConnError := true } := by
  decide

/-! ### Codec lemmas -/

theorem encodeSample_decodePair (lo hi : Fin 256) :
    encodeSample (decodePair lo hi) = [lo, hi] := by
  rcases lo with ⟨lo, hlo⟩
  rcases hi with ⟨hi, hhi⟩
  simp only [encodeSample, decodePair]
  split <;> simp only [List.cons.injEq, and_true, Fin.mk.injEq] <;> constructor <;> omega

theorem decodePair_range (lo hi : Fin 256) :
    -32768 ≤ decodePair lo hi ∧ decodePair lo hi < 32768 := by
  have hlo := lo.isLt
  have hhi := hi.isLt
  simp only [decodePair]
  split <;> omega

theorem decodePair_encodeSample (s : Int) (h1 : -32768 ≤ s) (h2 : s < 32768) :
    bytesToSamples (encodeSample s) = [s] := by
  simp only [encodeSample, bytesToSamples, decodePair]
  split <;> [skip; skip] <;> simp only [List.cons.injEq, and_true] <;> omega

theorem samplesToBytes_nil : samplesToBytes [] = [] := by
  simp [samplesToBytes]

theorem samplesToBytes_cons (s : Int) (ss : List Int) :
    samplesToBytes (s :: ss) = encodeSample s ++ samplesToBytes ss := by
  simp [samplesToBytes]

theorem samplesToBytes_append (s1 s2 : List Int) :
    samplesToBytes (s1 ++ s2) = samplesToBytes s1 ++ samplesToBytes s2 := by
  simp [samplesToBytes, List.map_append, List.flatten_append]

theorem bytesToSamples_append : ∀ b1 : List (Fin 256), b1.length % 2 = 0 →
    ∀ b2, bytesToSamples (b1 ++ b2) = bytesToSamples b1 ++ bytesToSamples b2
  | [], _, b2 => by simp [bytesToSamples]
  | [x], h, _ => by simp at h
  | lo :: hi :: rest, h, b2 => by
      have ih := bytesToSamples_append rest (by simp at h; omega) b2
      simp [bytesToSamples, ih]

theorem bytesToSamples_length : ∀ b : List (Fin 256), b.length % 2 = 0 →
    (bytesToSamples b).length = b.length / 2
  | [], _ => by simp [bytesToSamples]
  | [x], h => by simp at h
  | lo :: hi :: rest, h => by
      have ih := bytesToSamples_length rest (by simp at h; omega)
      simp [bytesToSamples, ih]
      omega

theorem samplesToBytes_bytesToSamples : ∀ b : List (Fin 256), b.length % 2 = 0 →
    samplesToBytes (bytesToSamples b) = b
  | [], _ => by simp [bytesToSamples, samplesToBytes]
  | [x], h => by simp at h
  | lo :: hi :: rest, h => by
      have ih := samplesToBytes_bytesToSamples rest (by simp at h; omega)
      simp only [bytesToSamples, samplesToBytes_cons, encodeSample_decodePair, ih]
      rfl

theorem bytesToSamples_samplesToBytes (ss : List Int)
    (h : ∀ s ∈ ss, -32768 ≤ s ∧ s < 32768) :
    bytesToSamples (samplesToBytes ss) = ss := by
  induction ss with
  | nil => simp [samplesToBytes, bytesToSamples]
  | cons s rest ih =>
      have hs := h s (by simp)
      have henc : (encodeSample s).length % 2 = 0 := by simp [encodeSample]
      rw [samplesToBytes_cons, bytesToSamples_append _ henc,
        decodePair_encodeSample s hs.1 hs.2, ih (fun x hx => h x (by simp [hx]))]
      rfl

/-! ### `process` branch lemmas -/

theorem process_of_empty (st : FadeInProcessor) : process st [] = (st, []) := by
  simp [process]

theorem process_of_fadeFrames_zero (st : FadeInProcessor) (chunk : List (Fin 256))
    (h : st.fadeFrames = 0) : process st chunk = (st, chunk) := by
  simp [process, h]

theorem process_of_misaligned (st : FadeInProcessor) (chunk : List (Fin 256))
    (h : chunk.length % frameWidth st ≠ 0) : process st chunk = (st, chunk) := by
  by_cases h0 : chunk.length = 0 ∨ st.fadeFrames = 0
  · unfold process
    rw [if_pos h0]
  · unfold process
    rw [if_neg h0, if_pos h]

theorem frameWidth_pos_of_aligned_ne_nil (st : FadeInProcessor) (chunk : List (Fin 256))
    (hne : chunk.length ≠ 0) (ha : chunk.length % frameWidth st = 0) :
    0 < frameWidth st := by
  rcases Nat.eq_zero_or_pos (frameWidth st) with h | h
  · rw [h, Nat.mod_zero] at ha
    exact absurd ha hne
  · exact h

theorem frameCount_pos_of_aligned_ne_nil (st : FadeInProcessor) (chunk : List (Fin 256))
    (hne : chunk.length ≠ 0) (ha : chunk.length % frameWidth st = 0) :
    0 < chunk.length / frameWidth st := by
  have hfw := frameWidth_pos_of_aligned_ne_nil st chunk hne ha
  have hge : frameWidth st ≤ chunk.length := by
    by_contra hlt
    exact hne (by rw [← Nat.mod_eq_of_lt (Nat.lt_of_not_le hlt), ha])
  exact Nat.lt_of_lt_of_le (Nat.div_pos (le_refl _) hfw) (Nat.div_le_div_right hge)

theorem process_of_pastFade (st : FadeInProcessor) (chunk : List (Fin 256))
    (hn : st.fadeFrames ≠ 0) (hne : chunk.length ≠ 0)
    (ha : chunk.length % frameWidth st = 0) (hp : st.fadeFrames ≤ st.processedFrames) :
    process st chunk =
      ({ st with processedFrames := st.processedFrames + chunk.length / frameWidth st },
        chunk) := by
  simp [process, hn, hne, ha, hp]

theorem process_of_fade (st : FadeInProcessor) (chunk : List (Fin 256))
    (hn : st.fadeFrames ≠ 0) (hne : chunk.length ≠ 0)
    (ha : chunk.length % frameWidth st = 0) (hp : st.processedFrames < st.fadeFrames) :
    process st chunk =
      ({ st with processedFrames := st.processedFrames + chunk.length / frameWidth st },
        samplesToBytes (fadeLoop st.numChannels st.fadeFrames
          (min (chunk.length / frameWidth st) (st.fadeFrames - st.processedFrames))
          st.processedFrames 0 (bytesToSamples chunk))) := by
  have hfc := frameCount_pos_of_aligned_ne_nil st chunk hne ha
  have hnotge : ¬ st.fadeFrames ≤ st.processedFrames := Nat.not_le_of_lt hp
  have hfc' : ¬ chunk.length / frameWidth st = 0 := by omega
  have haf : ¬ min (chunk.length / frameWidth st)
      (st.fadeFrames - st.processedFrames) = 0 := by omega
  simp [process, hn, hne, ha, hnotge, hfc', haf]

/-! ### `fadeLoop` lemmas -/

theorem fadeLoop_append (C n A sf : Nat) :
    ∀ (s1 : List Int) (i : Nat) (s2 : List Int),
      fadeLoop C n A sf i (s1 ++ s2) =
        fadeLoop C n A sf i s1 ++ fadeLoop C n A sf (i + s1.length) s2
  | [], i, s2 => by simp [fadeLoop]
  | s :: rest, i, s2 => by
      have ih := fadeLoop_append C n A sf rest (i + 1) s2
      simp only [List.cons_append, fadeLoop, List.append_eq, ih, List.length_cons]
      rw [show i + (rest.length + 1) = i + 1 + rest.length from by omega]

theorem fadeLoop_shift (C n A sf k : Nat) (hC : 0 < C) :
    ∀ (ss : List Int) (j : Nat),
      fadeLoop C n A sf (C * k + j) ss = fadeLoop C n (A - k) (sf + k) j ss
  | [], _ => rfl
  | s :: rest, j => by
      have ih := fadeLoop_shift C n A sf k hC rest (j + 1)
      have hdix : (C * k + j) / C = k + j / C := by
        rw [Nat.mul_add_div hC]
      have hcond : ∀ q : Nat, (k + q < A) ↔ (q < A - k) := fun q => by omega
      simp only [fadeLoop, hdix, hcond (j / C), Nat.add_assoc, ih]

theorem fadeLoop_congr (C n sf A A' : Nat) :
    ∀ (ss : List Int) (i : Nat),
      (∀ j, i ≤ j → j < i + ss.length → ((j / C < A) ↔ (j / C < A'))) →
      fadeLoop C n A sf i ss = fadeLoop C n A' sf i ss
  | [], _, _ => rfl
  | s :: rest, i, h => by
      have ih := fadeLoop_congr C n sf A A' rest (i + 1)
        (fun j hj1 hj2 => h j (by omega) (by simp only [List.length_cons]; omega))
      have hc := h i (le_refl i) (by simp only [List.length_cons]; omega)
      simp only [fadeLoop, ih, hc]

theorem fadeLoop_all_past (C n sf A : Nat) :
    ∀ (ss : List Int) (i : Nat), (∀ j, i ≤ j → ¬ (j / C < A)) →
      fadeLoop C n A sf i ss = ss
  | [], _, _ => rfl
  | s :: rest, i, h => by
      have ih := fadeLoop_all_past C n sf A rest (i + 1) (fun j hj => h j (by omega))
      simp only [fadeLoop, ih, if_neg (h i (le_refl i))]

theorem scaleSample_sign (s : Int) (pos n : Nat) :
    (0 ≤ s → 0 ≤ scaleSample s pos n) ∧ (s ≤ 0 → scaleSample s pos n ≤ 0) := by
  unfold scaleSample
  split
  · exact ⟨fun h => h, fun h => h⟩
  · constructor
    · intro hs
      exact Int.tdiv_nonneg (mul_nonneg hs (Int.ofNat_nonneg pos)) (Int.ofNat_nonneg n)
    · intro hs
      have h1 : 0 ≤ (-(s * (pos : Int))).tdiv (n : Int) :=
        Int.tdiv_nonneg
          (Int.neg_nonneg.mpr (mul_nonpos_iff.mpr (Or.inr ⟨hs, Int.ofNat_nonneg pos⟩)))
          (Int.ofNat_nonneg n)
      have h2 : (-(s * (pos : Int))).tdiv (n : Int) = -((s * (pos : Int)).tdiv (n : Int)) :=
        Int.neg_tdiv _ _
      omega

theorem natAbs_scaleSample_le (s : Int) (pos n : Nat) :
    (scaleSample s pos n).natAbs ≤ s.natAbs := by
  unfold scaleSample
  split
  · exact le_refl _
  · rename_i h
    rw [Int.natAbs_tdiv, Int.natAbs_mul, Int.natAbs_ofNat, Int.natAbs_ofNat]
    show s.natAbs * pos / n ≤ s.natAbs
    have hpn : pos ≤ n := by omega
    calc s.natAbs * pos / n ≤ s.natAbs * n / n :=
          Nat.div_le_div_right (Nat.mul_le_mul_left _ hpn)
      _ ≤ s.natAbs := by
          rcases Nat.eq_zero_or_pos n with h0 | h0
          · simp [h0]
          · rw [Nat.mul_div_cancel _ h0]

theorem fadeLoop_range (C n A sf : Nat) :
    ∀ (ss : List Int) (i : Nat), (∀ s ∈ ss, -32768 ≤ s ∧ s < 32768) →
      ∀ t ∈ fadeLoop C n A sf i ss, -32768 ≤ t ∧ t < 32768
  | [], _, _ => by simp [fadeLoop]
  | s :: rest, i, h => by
      have hs := h s (by simp)
      have ih := fadeLoop_range C n A sf rest (i + 1)
        (fun x hx => h x (by simp [hx]))
      intro t ht
      simp only [fadeLoop, List.mem_cons] at ht
      rcases ht with ht | ht
      · subst ht
        split
        · have hb := natAbs_scaleSample_le s (sf + i / C) n
          have hsg := scaleSample_sign s (sf + i / C) n
          rcases le_or_lt 0 s with hc | hc
          · have := hsg.1 hc
            omega
          · have := hsg.2 (le_of_lt hc)
            omega
        · exact hs
      · exact ih t ht

theorem fadeLoop_getD_natAbs_le (C n A sf : Nat) :
    ∀ (ss : List Int) (i0 k : Nat),
      ((fadeLoop C n A sf i0 ss).getD k 0).natAbs ≤ (ss.getD k 0).natAbs
  | [], _, _ => by simp [fadeLoop]
  | s :: rest, i0, 0 => by
      simp only [fadeLoop, List.getD_cons_zero]
      split
      · exact natAbs_scaleSample_le s (sf + i0 / C) n
      · exact le_refl _
  | s :: rest, i0, k + 1 => by
      simp only [fadeLoop, List.getD_cons_succ]
      exact fadeLoop_getD_natAbs_le C n A sf rest (i0 + 1) k

theorem bytesToSamples_range : ∀ b : List (Fin 256),
    ∀ s ∈ bytesToSamples b, -32768 ≤ s ∧ s < 32768
  | [] => by simp [bytesToSamples]
  | [x] => by simp [bytesToSamples]
  | lo :: hi :: rest => by
      intro s hs
      simp only [bytesToSamples, List.mem_cons] at hs
      rcases hs with rfl | hs
      · exact decodePair_range lo hi
      · exact bytesToSamples_range rest s hs

theorem length_even_of_aligned (st : FadeInProcessor) (b : List (Fin 256))
    (h : b.length % frameWidth st = 0) : b.length % 2 = 0 := by
  have h2 : frameWidth st ∣ b.length := Nat.dvd_of_mod_eq_zero h
  have h4 : (2 : Nat) ∣ b.length := dvd_trans ⟨st.numChannels, rfl⟩ h2
  obtain ⟨c, hc⟩ := h4
  omega

theorem process_fst_of_aligned (st : FadeInProcessor) (chunk : List (Fin 256))
    (hn : st.fadeFrames ≠ 0) (ha : chunk.length % frameWidth st = 0) :
    (process st chunk).1 =
      { st with processedFrames :=
          st.processedFrames + chunk.length / frameWidth st } := by
  by_cases hne : chunk.length = 0
  · have hnil : chunk = [] := List.length_eq_zero.mp hne
    subst hnil
    rw [process_of_empty]
    simp
  · by_cases hp : st.fadeFrames ≤ st.processedFrames
    · rw [process_of_pastFade st chunk hn hne ha hp]
    · rw [process_of_fade st chunk hn hne ha (Nat.lt_of_not_le hp)]

/-! ### Claim C9 -/

/-- C9: for every input buffer whose length is not a multiple of
`frame_width`, `_FadeInProcessor.process` returns the buffer unchanged
(byte-identical).  It never raises: in the embedding `process` is a total
function, and the misaligned branch is an early return before any decoding. -/
theorem process_misaligned_returns_input (st : FadeInProcessor)
    (chunk : List (Fin 256)) (h : chunk.length % frameWidth st ≠ 0) :
    (process st chunk).2 = chunk := by
  rw [process_of_misaligned st chunk h]

/-- Witness for C9 at a concrete misaligned buffer (1 byte, frame width 2). -/
theorem process_misaligned_returns_input_witness :
    (process ⟨1, 5, 0⟩ [7]).2 = [7] :=
  process_misaligned_returns_input ⟨1, 5, 0⟩ [7] (by decide)

/-! ### Claim C10 -/

/-- C10: processing a misaligned buffer or an empty buffer leaves the whole
envelope state unchanged — in particular `processed_frames` is not advanced —
so the fade window shifts onto later aligned buffers. -/
theorem process_degenerate_keeps_state (st : FadeInProcessor)
    (chunk : List (Fin 256))
    (h : chunk = [] ∨ chunk.length % frameWidth st ≠ 0) :
    (process st chunk).1 = st := by
  rcases h with rfl | h
  · rw [process_of_empty]
  · rw [process_of_misaligned st chunk h]

/-- Witness for C10 at a concrete misaligned buffer. -/
theorem process_degenerate_keeps_state_witness :
    (process ⟨1, 5, 0⟩ [0, 0, 0]).1 = ⟨1, 5, 0⟩ :=
  process_degenerate_keeps_state ⟨1, 5, 0⟩ [0, 0, 0] (Or.inr (by decide))

/-! ### Claim C4 -/

/-- Feeding a sequence of buffers through one envelope, in order
(`process` called once per buffer, threading the state). -/
def processSeq (st : FadeInProcessor) :
    List (List (Fin 256)) → FadeInProcessor × List (List (Fin 256))
  | [] => (st, [])
  | b :: rest =>
      let r := process st b
      let t := processSeq r.1 rest
      (t.1, r.2 :: t.2)

/-- C4 counterexample: the claim's sum equality fails as stated.  First
conjunct: a processor built from `sample_rate = 1`, `duration_ms = 220`
(constructed, since the duration is positive) has `fade_frames = 0`, and the
`fade_frames <= 0` early return never advances `processed_frames`, so after an
aligned one-frame buffer the counter is not the claimed sum.  Second conjunct:
a misaligned 3-byte buffer advances the counter by 0, not by
`len(buffer) // frame_width = 1`. -/
theorem processedFrames_sum_counterexample :
    (process (mkFadeInProcessor 1 1 220) [0, 0]).1.processedFrames ≠
      (mkFadeInProcessor 1 1 220).processedFrames +
        ([0, 0] : List (Fin 256)).length / frameWidth (mkFadeInProcessor 1 1 220) ∧
    (process ⟨1, 5, 0⟩ [0, 0, 0]).1.processedFrames ≠
      (⟨1, 5, 0⟩ : FadeInProcessor).processedFrames +
        ([0, 0, 0] : List (Fin 256)).length / frameWidth ⟨1, 5, 0⟩ := by
  decide

/-- C4 (amended): for a fade-enabled envelope (`fade_frame_count ≥ 1`) and
frame-aligned buffers, `processed_frame_count` after the sequence equals its
starting value plus the sum of the frame counts of every buffer passed
through — whether or not fading was applied to each — and is monotonically
non-decreasing. -/
theorem processSeq_processedFrames (st : FadeInProcessor)
    (bufs : List (List (Fin 256))) (hn : 1 ≤ st.fadeFrames)
    (ha : ∀ b ∈ bufs, b.length % frameWidth st = 0) :
    (processSeq st bufs).1.processedFrames =
      st.processedFrames + (bufs.map (fun b => b.length / frameWidth st)).sum ∧
    st.processedFrames ≤ (processSeq st bufs).1.processedFrames := by
  induction bufs generalizing st with
  | nil => simp [processSeq]
  | cons b rest ih =>
      obtain ⟨C, n, p⟩ := st
      have hn1 : 1 ≤ n := by simpa using hn
      have hn' : n ≠ 0 := by omega
      have hb := ha b (by simp)
      have hst1 := process_fst_of_aligned ⟨C, n, p⟩ b hn' hb
      have hrest := ih ⟨C, n, p + b.length / frameWidth ⟨C, n, p⟩⟩ (by simpa using hn)
        (fun x hx => ha x (by simp [hx]))
      have hfw2 : frameWidth ⟨C, n, p + b.length / frameWidth ⟨C, n, p⟩⟩ =
          frameWidth ⟨C, n, p⟩ := rfl
      have hpr : ∀ x : Nat, (⟨C, n, x⟩ : FadeInProcessor).processedFrames = x :=
        fun _ => rfl
      have hnc : ∀ x : Nat, (⟨C, n, x⟩ : FadeInProcessor).numChannels = C :=
        fun _ => rfl
      have hff : ∀ x : Nat, (⟨C, n, x⟩ : FadeInProcessor).fadeFrames = n :=
        fun _ => rfl
      simp only [hnc, hff, hpr] at hst1
      simp only [hfw2, hpr] at hrest
      obtain ⟨hr1, hr2⟩ := hrest
      simp only [processSeq, List.map_cons, List.sum_cons, hst1, hpr]
      exact ⟨by rw [hr1, Nat.add_assoc], le_trans (Nat.le_add_right p _) hr2⟩

/-- Witness for C4 (amended) at a fade-enabled 2-frame envelope and two
aligned buffers of 1 and 2 frames. -/
theorem processSeq_processedFrames_witness :
    (processSeq ⟨1, 2, 0⟩ [[10, 0], [20, 0, 30, 0]]).1.processedFrames =
      (⟨1, 2, 0⟩ : FadeInProcessor).processedFrames +
        (([[10, 0], [20, 0, 30, 0]] : List (List (Fin 256))).map
          (fun b => b.length / frameWidth ⟨1, 2, 0⟩)).sum ∧
    (⟨1, 2, 0⟩ : FadeInProcessor).processedFrames ≤
      (processSeq ⟨1, 2, 0⟩ [[10, 0], [20, 0, 30, 0]]).1.processedFrames :=
  processSeq_processedFrames ⟨1, 2, 0⟩ [[10, 0], [20, 0, 30, 0]] (by decide)
    (by decide)

/-! ### Claim C3 -/

/-- C3 counterexample: the envelope `⟨1, 1, 0⟩` is fade-enabled
(`fade_frame_count = 1`) and the aligned one-frame buffer `[100, 0]`
(sample value 100) has its last faded frame at frame index
`0 = fade_frame_count - 1`, i.e. at the claimed boundary — yet the output is
the zeroed frame `[0, 0]`, not the unfaded input: the factor applied there is
`(fade_frame_count - 1) / fade_frame_count = 0`, never `1.0`. -/
theorem process_fade_boundary_counterexample :
    (1 : Nat) ≤ (⟨1, 1, 0⟩ : FadeInProcessor).fadeFrames ∧
    ([100, 0] : List (Fin 256)).length % frameWidth ⟨1, 1, 0⟩ = 0 ∧
    (process ⟨1, 1, 0⟩ [100, 0]).2 = [0, 0] ∧
    (process ⟨1, 1, 0⟩ [100, 0]).2 ≠ [100, 0] := by
  decide

/-- C3 (amended): the fade introduces no overshoot or clipping anywhere —
in particular at the last faded frame — because every faded sample is the
input sample scaled by a factor `≤ 1` truncated toward zero: for every
aligned buffer, every decoded output sample of `process` has magnitude at
most that of the corresponding input sample.  (Exact equality with the
unfaded input at the last faded frame does not hold; see the
counterexample.) -/
theorem process_output_no_overshoot (st : FadeInProcessor)
    (chunk : List (Fin 256)) (ha : chunk.length % frameWidth st = 0) (i : Nat) :
    ((bytesToSamples (process st chunk).2).getD i 0).natAbs ≤
      ((bytesToSamples chunk).getD i 0).natAbs := by
  by_cases hn : st.fadeFrames = 0
  · rw [process_of_fadeFrames_zero st chunk hn]
  · by_cases hne : chunk.length = 0
    · have hnil : chunk = [] := List.length_eq_zero.mp hne
      subst hnil
      rw [process_of_empty]
    · by_cases hp : st.fadeFrames ≤ st.processedFrames
      · rw [process_of_pastFade st chunk hn hne ha hp]
      · rw [process_of_fade st chunk hn hne ha (Nat.lt_of_not_le hp)]
        rw [bytesToSamples_samplesToBytes _
          (fadeLoop_range _ _ _ _ (bytesToSamples chunk) 0 (bytesToSamples_range chunk))]
        exact fadeLoop_getD_natAbs_le _ _ _ _ (bytesToSamples chunk) 0 i

/-- Witness for C3 (amended) at a concrete 2-frame fade and sample index 1. -/
theorem process_output_no_overshoot_witness :
    ((bytesToSamples (process ⟨1, 2, 0⟩ [100, 0, 100, 0]).2).getD 1 0).natAbs ≤
      ((bytesToSamples ([100, 0, 100, 0] : List (Fin 256))).getD 1 0).natAbs :=
  process_output_no_overshoot ⟨1, 2, 0⟩ [100, 0, 100, 0] (by decide) 1

/-! ### Claim C5 -/

theorem process_pastFade' (C n p : Nat) (chunk : List (Fin 256)) (hn : n ≠ 0)
    (hne : chunk.length ≠ 0) (ha : chunk.length % (2 * C) = 0) (hp : n ≤ p) :
    process ⟨C, n, p⟩ chunk = (⟨C, n, p + chunk.length / (2 * C)⟩, chunk) :=
  process_of_pastFade ⟨C, n, p⟩ chunk hn hne ha hp

theorem process_fade' (C n p : Nat) (chunk : List (Fin 256)) (hn : n ≠ 0)
    (hne : chunk.length ≠ 0) (ha : chunk.length % (2 * C) = 0) (hp : p < n) :
    process ⟨C, n, p⟩ chunk =
      (⟨C, n, p + chunk.length / (2 * C)⟩,
        samplesToBytes (fadeLoop C n (min (chunk.length / (2 * C)) (n - p)) p 0
          (bytesToSamples chunk))) :=
  process_of_fade ⟨C, n, p⟩ chunk hn hne ha hp

/-- C5: split-invariance of the fade transform.  For every envelope state and
every split of a frame-aligned buffer into two adjacent frame-aligned buffers
`b1 ++ b2`, applying `process` to `b1` then to `b2` yields concatenated output
byte-identical to applying it to `b1 ++ b2` once, and leaves the envelope in
the same final state. -/
theorem process_split_invariance (st : FadeInProcessor) (b1 b2 : List (Fin 256))
    (h1 : b1.length % frameWidth st = 0) (h2 : b2.length % frameWidth st = 0) :
    (process st (b1 ++ b2)).1 = (process (process st b1).1 b2).1 ∧
    (process st (b1 ++ b2)).2 =
      (process st b1).2 ++ (process (process st b1).1 b2).2 := by
  by_cases hn : st.fadeFrames = 0
  · rw [process_of_fadeFrames_zero st (b1 ++ b2) hn,
      process_of_fadeFrames_zero st b1 hn]
    simp only []
    rw [process_of_fadeFrames_zero st b2 hn]
    exact ⟨rfl, rfl⟩
  by_cases hb1 : b1.length = 0
  · have hnil : b1 = [] := List.length_eq_zero.mp hb1
    subst hnil
    rw [process_of_empty]
    simp
  by_cases hb2 : b2.length = 0
  · have hnil : b2 = [] := List.length_eq_zero.mp hb2
    subst hnil
    rw [List.append_nil, process_of_empty]
    simp
  obtain ⟨C, n, p⟩ := st
  have hfwx : ∀ x : Nat, frameWidth ⟨C, n, x⟩ = 2 * C := fun _ => rfl
  simp only [hfwx] at h1 h2
  have hn' : n ≠ 0 := hn
  have hC : 0 < C := by
    rcases Nat.eq_zero_or_pos C with h0 | h0
    · subst h0
      simp at h1
      exact absurd (by simp [h1]) hb1
    · exact h0
  obtain ⟨k1, hk1⟩ : (2 * C) ∣ b1.length := Nat.dvd_of_mod_eq_zero h1
  obtain ⟨k2, hk2⟩ : (2 * C) ∣ b2.length := Nat.dvd_of_mod_eq_zero h2
  have hk1pos : 0 < k1 := by
    rcases Nat.eq_zero_or_pos k1 with h0 | h0
    · rw [h0, Nat.mul_zero] at hk1
      exact absurd hk1 hb1
    · exact h0
  have hk2pos : 0 < k2 := by
    rcases Nat.eq_zero_or_pos k2 with h0 | h0
    · rw [h0, Nat.mul_zero] at hk2
      exact absurd hk2 hb2
    · exact h0
  have hd1 : b1.length / (2 * C) = k1 := by
    rw [hk1]
    exact Nat.mul_div_cancel_left _ (by omega)
  have hd2 : b2.length / (2 * C) = k2 := by
    rw [hk2]
    exact Nat.mul_div_cancel_left _ (by omega)
  have hlen12 : (b1 ++ b2).length = 2 * C * (k1 + k2) := by
    rw [List.length_append, hk1, hk2, Nat.mul_add]
  have ha12 : (b1 ++ b2).length % (2 * C) = 0 := by
    rw [hlen12]
    exact Nat.mul_mod_right _ _
  have hne12 : (b1 ++ b2).length ≠ 0 := by
    rw [hlen12]
    have : 0 < 2 * C * (k1 + k2) := Nat.mul_pos (by omega) (by omega)
    omega
  have hd12 : (b1 ++ b2).length / (2 * C) = k1 + k2 := by
    rw [hlen12]
    exact Nat.mul_div_cancel_left _ (by omega)
  have hb1even : b1.length % 2 = 0 := by
    rw [Nat.mul_assoc] at hk1
    omega
  have hb2even : b2.length % 2 = 0 := by
    rw [Nat.mul_assoc] at hk2
    omega
  have key : process ⟨C, n, p⟩ (b1 ++ b2) =
      ((process (process ⟨C, n, p⟩ b1).1 b2).1,
        (process ⟨C, n, p⟩ b1).2 ++ (process (process ⟨C, n, p⟩ b1).1 b2).2) := by
    by_cases hp : n ≤ p
    · rw [process_pastFade' C n p (b1 ++ b2) hn' hne12 ha12 hp,
        process_pastFade' C n p b1 hn' hb1 h1 hp, hd1, hd12]
      simp only []
      rw [process_pastFade' C n (p + k1) b2 hn' hb2 h2 (by omega), hd2]
      rw [show p + (k1 + k2) = p + k1 + k2 from by omega]
    · have hp' : p < n := Nat.lt_of_not_le hp
      rw [process_fade' C n p (b1 ++ b2) hn' hne12 ha12 hp',
        process_fade' C n p b1 hn' hb1 h1 hp', hd1, hd12]
      simp only []
      have hS1len : (bytesToSamples b1).length = C * k1 := by
        rw [bytesToSamples_length b1 hb1even, hk1, Nat.mul_assoc,
          Nat.mul_div_cancel_left _ (by omega : (0 : Nat) < 2)]
      rw [bytesToSamples_append b1 hb1even b2,
        fadeLoop_append C n (min (k1 + k2) (n - p)) p (bytesToSamples b1) 0
          (bytesToSamples b2),
        show 0 + (bytesToSamples b1).length = C * k1 + 0 from by rw [hS1len]; omega,
        fadeLoop_shift C n (min (k1 + k2) (n - p)) p k1 hC (bytesToSamples b2) 0]
      have hcongr : fadeLoop C n (min (k1 + k2) (n - p)) p 0 (bytesToSamples b1) =
          fadeLoop C n (min k1 (n - p)) p 0 (bytesToSamples b1) := by
        apply fadeLoop_congr
        intro j hj0 hj1
        rw [hS1len, Nat.mul_comm] at hj1
        have hq : j / C < k1 := (Nat.div_lt_iff_lt_mul hC).mpr (by omega)
        revert hq
        generalize j / C = q
        intro hq
        omega
      rw [hcongr, samplesToBytes_append]
      by_cases hp2 : p + k1 < n
      · rw [process_fade' C n (p + k1) b2 hn' hb2 h2 hp2, hd2]
        simp only []
        rw [show min (k1 + k2) (n - p) - k1 = min k2 (n - (p + k1)) from by omega]
        rw [show p + (k1 + k2) = p + k1 + k2 from by omega]
      · have hp2' : n ≤ p + k1 := Nat.le_of_not_lt hp2
        rw [process_pastFade' C n (p + k1) b2 hn' hb2 h2 hp2', hd2]
        simp only []
        rw [show min (k1 + k2) (n - p) - k1 = 0 from by omega]
        rw [fadeLoop_all_past C n (p + k1) 0 (bytesToSamples b2) 0
          (fun j _ => Nat.not_lt_zero _)]
        rw [samplesToBytes_bytesToSamples b2 hb2even]
        rw [show p + (k1 + k2) = p + k1 + k2 from by omega]
  exact ⟨by rw [key], by rw [key]⟩

/-- Witness for C5: a 3-frame fade envelope, split of a 2-frame buffer after
its first frame. -/
theorem process_split_invariance_witness :
    (process ⟨1, 3, 0⟩ ([100, 0] ++ [100, 0])).1 =
      (process (process ⟨1, 3, 0⟩ [100, 0]).1 [100, 0]).1 ∧
    (process ⟨1, 3, 0⟩ ([100, 0] ++ [100, 0])).2 =
      (process ⟨1, 3, 0⟩ [100, 0]).2 ++
        (process (process ⟨1, 3, 0⟩ [100, 0]).1 [100, 0]).2 :=
  process_split_invariance ⟨1, 3, 0⟩ [100, 0] [100, 0] (by decide) (by decide)

/-! ### Claim C6 -/

theorem consumeLoop_no_error : ∀ (ys : List (List (Fin 256)))
    (fp : Option FadeInProcessor),
    consumeLoop fp (ys.map QItem.chunk) false =
      ((processedList fp ys).1, (processedList fp ys).2, false)
  | [], fp => by simp [consumeLoop, processedList]
  | b :: rest, fp => by
      have ih := consumeLoop_no_error rest (processOpt fp b).1
      simp [consumeLoop, processedList, ih]

theorem consumeLoop_with_error : ∀ (ys : List (List (Fin 256)))
    (fp : Option FadeInProcessor),
    consumeLoop fp (ys.map QItem.chunk ++ [QItem.exc]) false =
      ((processedList fp ys).1, (processedList fp ys).2, true)
  | [], fp => by simp [consumeLoop, processedList]
  | b :: rest, fp => by
      have ih := consumeLoop_with_error rest (processOpt fp b).1
      simp [consumeLoop, processedList, ih]

/-- C6: one-shot bridge ordering and error-as-value.  A source that yields
`[c1, c2, c3]` and finishes cleanly causes exactly those chunks,
fade-processed, to be pushed in order, followed by normal completion
(`end_input`, no error).  A source that raises after `[c1, c2]` causes `c1`
and `c2` to be pushed in order and the call then raises the single
connection error.  Order is forced: the modelled courier queue is FIFO and
the worker is its sole producer. -/
theorem chunkedRun_bridge (fp : Option FadeInProcessor)
    (c1 c2 c3 : List (Fin 256)) :
    (chunkedRun fp [c1, c2, c3] false).pushes =
      (processedList fp [c1, c2, c3]).2 ∧
    (chunkedRun fp [c1, c2, c3] false).raisedConnError = false ∧
    (chunkedRun fp [c1, c2, c3] false).endInputCalled = true ∧
    (chunkedRun fp [c1, c2] true).pushes = (processedList fp [c1, c2]).2 ∧
    (chunkedRun fp [c1, c2] true).raisedConnError = true := by
  have h1 := consumeLoop_no_error [c1, c2, c3] fp
  have h2 := consumeLoop_with_error [c1, c2] fp
  simp only [List.map_cons, List.map_nil, List.cons_append, List.nil_append]
    at h1 h2
  simp [chunkedRun, courierItems, h1, h2]

/-! ### Claim C7 -/

/-- C7: outbound half of the duplex session.  `["hello", flush, "world",
flush]` sends exactly two text-submission frames, each immediately followed
by a flush frame, carrying `"hello"` and `"world"` (then the stop frame at
end-of-input); a whitespace-only flush sends zero frames (and no stop frame,
since nothing was submitted); two identical non-empty flushes send two
identical submissions — no deduplication. -/
theorem sendLoop_outbound_scenarios :
    sendLoop [InputItem.text "hello", InputItem.flushMarker,
      InputItem.text "world", InputItem.flushMarker] =
      [Frame.text "hello", Frame.flush, Frame.text "world", Frame.flush,
        Frame.stop] ∧
    sendLoop [InputItem.text "  ", InputItem.flushMarker] = [] ∧
    sendLoop [InputItem.text "hi", InputItem.flushMarker,
      InputItem.text "hi", InputItem.flushMarker] =
      [Frame.text "hi", Frame.flush, Frame.text "hi", Frame.flush,
        Frame.stop] := by
  decide

/-! ### Claim C8 -/

theorem recvLoop_no_finish : ∀ (msgs : List InEvent)
    (fp : Option FadeInProcessor) (rest : List RecvItem),
    (∀ e ∈ msgs, e.isFinish = false) →
    recvLoop fp (msgs.map RecvItem.msg ++ RecvItem.timeout :: rest) =
      ((recvPushes fp msgs).1, (recvPushes fp msgs).2, Outcome.normal)
  | [], fp, rest, _ => by simp [recvLoop, recvPushes]
  | e :: ms, fp, rest, h => by
      cases e with
      | audio chunk =>
          by_cases hc : chunk.length = 0
          · have ih := recvLoop_no_finish ms fp rest
              (fun x hx => h x (by simp [hx]))
            simp [recvLoop, recvPushes, hc, ih]
          · have ih := recvLoop_no_finish ms (processOpt fp chunk).1 rest
              (fun x hx => h x (by simp [hx]))
            simp [recvLoop, recvPushes, hc, ih]
      | finish reason =>
          have := h (InEvent.finish reason) (by simp)
          simp [InEvent.isFinish] at this
      | unknown =>
          have ih := recvLoop_no_finish ms fp rest
            (fun x hx => h x (by simp [hx]))
          simp [recvLoop, recvPushes, ih]

/-- C8: a per-receive wait that expires with no frame received ends the
receive loop as normal synthesis completion, not an error: after any inbound
messages containing no finish event, a timeout expiry yields outcome
`normal` (never the connection error) and the pushes are exactly the
fade-processed non-empty audio chunks already forwarded.  The wait bound is
the configured timeout when truthy, else the 30-second default. -/
theorem recvLoop_timeout_is_normal_completion (fp : Option FadeInProcessor)
    (msgs : List InEvent) (rest : List RecvItem)
    (h : ∀ e ∈ msgs, e.isFinish = false) :
    (recvLoop fp (msgs.map RecvItem.msg ++ RecvItem.timeout :: rest)).2.2 =
      Outcome.normal ∧
    (recvLoop fp (msgs.map RecvItem.msg ++ RecvItem.timeout :: rest)).2.1 =
      (recvPushes fp msgs).2 ∧
    receiveTimeout 0 = 30 ∧ receiveTimeout 7 = 7 := by
  rw [recvLoop_no_finish msgs fp rest h]
  refine ⟨rfl, rfl, by norm_num [receiveTimeout], by norm_num [receiveTimeout]⟩

/-- Witness for C8: one audio frame then a timeout expiry. -/
theorem recvLoop_timeout_is_normal_completion_witness :
    (recvLoop none ([InEvent.audio [1, 0]].map RecvItem.msg ++
      RecvItem.timeout :: [])).2.2 = Outcome.normal ∧
    (recvLoop none ([InEvent.audio [1, 0]].map RecvItem.msg ++
      RecvItem.timeout :: [])).2.1 = (recvPushes none [InEvent.audio [1, 0]]).2 ∧
    receiveTimeout 0 = 30 ∧ receiveTimeout 7 = 7 :=
  recvLoop_timeout_is_normal_completion none [InEvent.audio [1, 0]] []
    (by decide)

/-! ### Claim C1 -/

/-- `c.isPush = true` iff the call is a `push`. -/
def EmitterCall.isPush : EmitterCall → Bool
  | EmitterCall.push _ => true
  | _ => false

/-- `c.isEndInput = true` iff the call is `end_input`. -/
def EmitterCall.isEndInput : EmitterCall → Bool
  | EmitterCall.endInput => true
  | _ => false

/-- C1 counterexample: a streaming call whose receive loop sees no audio
event at all (a bare wait expiry) still calls `start_segment` exactly once —
`_FadingStream._run` opens the segment unconditionally right after the
websocket handshake (tts.py line 338), before the receive loop runs, so the
opening is not deferred until real audio exists and is not triggered by the
first audio event. -/
theorem startSegment_without_audio_counterexample :
    (streamEmitterTrace none [RecvItem.timeout]).countP
      (fun c => c.isStartSegment) = 1 ∧
    (streamEmitterTrace none [RecvItem.timeout]).countP
      (fun c => c.isPush) = 0 := by
  decide

/-- C1 (amended): `start_segment` is called exactly once per streaming call,
unconditionally, immediately after the handshake; it occurs strictly before
every push of audio, but it is issued even when no audio event ever arrives,
and subsequent audio events cause no further `start_segment` calls. -/
theorem streamRun_startSegment_once (fp : Option FadeInProcessor)
    (items : List RecvItem) :
    (streamEmitterTrace fp items).countP (fun c => c.isStartSegment) = 1 ∧
    (streamEmitterTrace fp items)[1]? = some EmitterCall.startSegment ∧
    ∀ i b, (streamEmitterTrace fp items)[i]? = some (EmitterCall.push b) →
      1 < i := by
  have htr : streamEmitterTrace fp items =
      EmitterCall.init :: EmitterCall.startSegment ::
        ((recvLoop fp items).2.1.map EmitterCall.push ++
          [EmitterCall.endInput]) := rfl
  refine ⟨?_, ?_, ?_⟩
  · rw [htr]
    simp [List.countP_cons, List.countP_append, List.countP_map,
      EmitterCall.isStartSegment, Function.comp]
  · rw [htr]
    simp
  · intro i b hpush
    rcases i with _ | _ | i
    · rw [htr] at hpush
      simp at hpush
    · rw [htr] at hpush
      simp at hpush
    · omega

/-- Witness for C1 (amended): a call with one audio frame; its push sits at
index 2, after the `start_segment` at index 1. -/
theorem streamRun_startSegment_once_witness :
    (streamEmitterTrace none [RecvItem.msg (InEvent.audio [5, 0]),
      RecvItem.timeout]).countP (fun c => c.isStartSegment) = 1 ∧ 1 < 2 :=
  ⟨(streamRun_startSegment_once none [RecvItem.msg (InEvent.audio [5, 0]),
      RecvItem.timeout]).1,
    (streamRun_startSegment_once none [RecvItem.msg (InEvent.audio [5, 0]),
      RecvItem.timeout]).2.2 2 [5, 0] (by decide)⟩

/-! ### Claim C2 -/

/-- C2 counterexample: in the one-shot path, when the blocking source raises
(here after yielding one chunk), the consume loop records the error and
`_run` raises the wrapped connection error WITHOUT calling `end_input()` —
`_FadingChunkedStream._run` reaches `output_emitter.end_input()` only on the
no-error path and has no `finally` for it (tts.py lines 189-193), unlike the
streaming path. -/
theorem chunked_endInput_counterexample :
    (chunkedRun none [[1, 0]] true).raisedConnError = true ∧
    (chunkedRun none [[1, 0]] true).endInputCalled = false := by
  decide

/-- C2 (amended): the streaming path issues `end_input()` exactly once, as
the final emitter call, whether the call completes normally or raises (the
`finally` block, tts.py lines 359-360); the one-shot path issues
`end_input()` before returning on normal completion, but on a
connection-error the error propagates WITHOUT `end_input()` being called. -/
theorem endInput_discipline (fp fq : Option FadeInProcessor)
    (items : List RecvItem) (ys : List (List (Fin 256))) :
    (streamEmitterTrace fp items).getLast? = some EmitterCall.endInput ∧
    (streamEmitterTrace fp items).countP (fun c => c.isEndInput) = 1 ∧
    (chunkedRun fq ys false).endInputCalled = true ∧
    (chunkedRun fq ys false).raisedConnError = false ∧
    (chunkedRun fq ys true).endInputCalled = false ∧
    (chunkedRun fq ys true).raisedConnError = true := by
  have htr : streamEmitterTrace fp items =
      (EmitterCall.init :: EmitterCall.startSegment ::
        (recvLoop fp items).2.1.map EmitterCall.push) ++
          [EmitterCall.endInput] := by
    simp [streamEmitterTrace, streamRun]
  have h1 := consumeLoop_no_error ys fq
  have h2 := consumeLoop_with_error ys fq
  refine ⟨?_, ?_, ?_, ?_, ?_, ?_⟩
  · rw [htr, List.getLast?_concat]
  · rw [htr]
    simp [List.countP_cons, List.countP_append, List.countP_map,
      EmitterCall.isEndInput, Function.comp]
  · simp [chunkedRun, courierItems, h1]
  · simp [chunkedRun, courierItems, h1]
  · simp [chunkedRun, courierItems, h2]
  · simp [chunkedRun, courierItems, h2]

end FishAudio
